import Mathlib

/-!
Verification of the pyre-check client transport layer
(`client/commands/v2/async_server_connection.py` and
`client/commands/daemon_query.py`) against its specification.

Byte streams are modelled as lists of natural numbers (each < 256 in
practice, though nothing below depends on that bound); a reader is
identified with its remaining stream, and each read operation returns the
value read together with the new remaining stream.  Fallible reads return
`Except`, whose `error` payload is the partial data attached to the
`asyncio.IncompleteRead` condition.
-/

namespace AsyncServerConnection

/-- Modelled from the spec: the byte-channel `read_until` scanning loop.
`BytesReader.read_until` is abstract in the source (its concrete
memory-backed implementation is exercised only by the tests); the spec says
it "scans the internal buffer plus newly-pulled transport data for the
first occurrence of `separator`; returns all bytes up to and including it,
consuming them from the stream".  The accumulator `acc` holds the bytes
scanned so far; after each new byte the scan checks whether the data read
so far ends with the separator. -/
def readUntilAux (sep : List Nat) (acc : List Nat) :
    List Nat → Except (List Nat) (List Nat × List Nat)
  | [] => .error acc
  | b :: rest =>
    if sep <:+ (acc ++ [b]) then .ok (acc ++ [b], rest)
    else readUntilAux sep (acc ++ [b]) rest

/-- Modelled from the spec: `read_until(separator)` on a reader whose
remaining stream is the second argument.  On success it returns the bytes
up to and including the first occurrence of the separator, paired with the
remainder of the stream; if end-of-stream is reached first it fails with
the partial bytes consumed (the whole remaining stream). -/
def read_until (sep s : List Nat) : Except (List Nat) (List Nat × List Nat) :=
  readUntilAux sep [] s

/-- Modelled from the spec: `read_exactly(count)` pulls bytes one at a time;
it returns exactly `count` bytes and the remainder, or fails with the
partial bytes read (all of the stream) when end-of-stream occurs first. -/
def read_exactly : Nat → List Nat → Except (List Nat) (List Nat × List Nat)
  | 0, s => .ok ([], s)
  | _ + 1, [] => .error []
  | n + 1, b :: rest =>
    match read_exactly n rest with
    | .ok (bs, s) => .ok (b :: bs, s)
    | .error partialBytes => .error (b :: partialBytes)

/-- `BytesReader.readline` from the source: read until `b"\n"`, and if that
fails with `asyncio.IncompleteReadError` return the partial data of the
error instead of propagating the failure. -/
def readline (s : List Nat) : List Nat × List Nat :=
  match read_until [10] s with
  | .ok (line, rest) => (line, rest)
  | .error partialBytes => (partialBytes, [])

/-- A Unicode scalar value: a code point below `0x110000` that is not a
UTF-16 surrogate.  Exactly these values are encodable in UTF-8. -/
def validScalar (c : Nat) : Prop := c < 0x110000 ∧ (c < 0xD800 ∨ 0xE000 ≤ c)

instance (c : Nat) : Decidable (validScalar c) := by
  unfold validScalar
  infer_instance

/-- Modelled standard library behavior: UTF-8 encoding of one code point
(`str.encode("utf-8")` on a single character). -/
def encodeChar (c : Nat) : List Nat :=
  if c < 0x80 then [c]
  else if c < 0x800 then [0xC0 + c / 64, 0x80 + c % 64]
  else if c < 0x10000 then [0xE0 + c / 4096, 0x80 + c / 64 % 64, 0x80 + c % 64]
  else [0xF0 + c / 262144, 0x80 + c / 4096 % 64, 0x80 + c / 64 % 64, 0x80 + c % 64]

/-- Modelled standard library behavior: UTF-8 encoding of a string, given as
its list of code points (`str.encode("utf-8")`). -/
def encodeUtf8 : List Nat → List Nat
  | [] => []
  | c :: cs => encodeChar c ++ encodeUtf8 cs

/-- Modelled standard library behavior: classification of one UTF-8-encoded
code point starting at lead byte `b` with following bytes `rest`.  Returns
the decoded code point and the number of continuation bytes it used, or
`none` if no valid, shortest-form, scalar-value encoding starts here.
Overlong encodings, surrogates, code points above `0x10FFFF`, truncated
sequences and stray bytes are all rejected. -/
def utf8DecodeChunk (b : Nat) (rest : List Nat) : Option (Nat × Nat) :=
  if b < 0x80 then some (b, 0)
  else if b < 0xC2 then none
  else if b < 0xE0 then
    match rest with
    | b1 :: _ =>
      if 0x80 ≤ b1 ∧ b1 < 0xC0 then
        some ((b - 0xC0) * 64 + (b1 - 0x80), 1)
      else none
    | [] => none
  else if b < 0xF0 then
    match rest with
    | b1 :: b2 :: _ =>
      if (0x80 ≤ b1 ∧ b1 < 0xC0) ∧ (0x80 ≤ b2 ∧ b2 < 0xC0) then
        if (b - 0xE0) * 4096 + (b1 - 0x80) * 64 + (b2 - 0x80) < 0x800
            ∨ (0xD800 ≤ (b - 0xE0) * 4096 + (b1 - 0x80) * 64 + (b2 - 0x80)
               ∧ (b - 0xE0) * 4096 + (b1 - 0x80) * 64 + (b2 - 0x80) < 0xE000) then none
        else some ((b - 0xE0) * 4096 + (b1 - 0x80) * 64 + (b2 - 0x80), 2)
      else none
    | _ => none
  else if b < 0xF5 then
    match rest with
    | b1 :: b2 :: b3 :: _ =>
      if (0x80 ≤ b1 ∧ b1 < 0xC0) ∧ (0x80 ≤ b2 ∧ b2 < 0xC0) ∧ (0x80 ≤ b3 ∧ b3 < 0xC0) then
        if (b - 0xF0) * 262144 + (b1 - 0x80) * 4096 + (b2 - 0x80) * 64 + (b3 - 0x80) < 0x10000
            ∨ 0x110000 ≤ (b - 0xF0) * 262144 + (b1 - 0x80) * 4096
              + (b2 - 0x80) * 64 + (b3 - 0x80) then none
        else some ((b - 0xF0) * 262144 + (b1 - 0x80) * 4096 + (b2 - 0x80) * 64 + (b3 - 0x80), 3)
      else none
    | _ => none
  else none

/-- Modelled standard library behavior: strict UTF-8 decoding
(`bytes.decode("utf-8")` with the default `errors="strict"`): `none` models
a raised `UnicodeDecodeError`. -/
def decodeUtf8Strict : List Nat → Option (List Nat)
  | [] => some []
  | b :: rest =>
    match utf8DecodeChunk b rest with
    | some (c, k) => (decodeUtf8Strict (rest.drop k)).map (fun cs => c :: cs)
    | none => none
termination_by l => l.length
decreasing_by
  all_goals simp
  omega

/-- Modelled from the spec: replacement-mode UTF-8 decoding
(`bytes.decode("utf-8", errors="replace")`; "invalid sequences decode to a
replacement marker rather than failing the whole read"): each offending
byte is replaced by U+FFFD (65533) and decoding continues. -/
def decodeUtf8Replace : List Nat → List Nat
  | [] => []
  | b :: rest =>
    match utf8DecodeChunk b rest with
    | some (c, k) => c :: decodeUtf8Replace (rest.drop k)
    | none => 0xFFFD :: decodeUtf8Replace rest
termination_by l => l.length
decreasing_by
  all_goals simp
  omega

/-- Failure modes of the text-channel read operations: a propagated
`asyncio.IncompleteReadError` (carrying the partial bytes), or a
`UnicodeDecodeError` from strict decoding. -/
inductive TextReadError where
  | incompleteRead (partialBytes : List Nat)
  | decodeError
deriving DecidableEq

/-- `TextReader.read_until` from the source: encode the separator, delegate
to the byte-level `read_until`, then decode the result strictly
(`result_bytes.decode(self.encoding)`). -/
def textReadUntil (sep : List Nat) (s : List Nat) :
    Except TextReadError (List Nat × List Nat) :=
  match read_until (encodeUtf8 sep) s with
  | .error partialBytes => .error (.incompleteRead partialBytes)
  | .ok (bs, rest) =>
    match decodeUtf8Strict bs with
    | some t => .ok (t, rest)
    | none => .error .decodeError

/-- `TextReader.read_exactly` from the source: delegate to the byte-level
`read_exactly`, then decode the result strictly. -/
def textReadExactly (n : Nat) (s : List Nat) :
    Except TextReadError (List Nat × List Nat) :=
  match read_exactly n s with
  | .error partialBytes => .error (.incompleteRead partialBytes)
  | .ok (bs, rest) =>
    match decodeUtf8Strict bs with
    | some t => .ok (t, rest)
    | none => .error .decodeError

/-- `TextReader.readline` from the source: delegate to the byte-level
`readline`, then decode the result strictly. -/
def textReadline (s : List Nat) : Except TextReadError (List Nat × List Nat) :=
  match readline s with
  | (bs, rest) =>
    match decodeUtf8Strict bs with
    | some t => .ok (t, rest)
    | none => .error .decodeError

/-- `TextWriter.write` from the source: encode the text and hand the bytes
to the byte-level writer, which appends them to the transport channel. -/
def textWrite (data : List Nat) (channel : List Nat) : List Nat :=
  channel ++ encodeUtf8 data

/-- The methods defined by the abstract class `BytesReader` in the source. -/
def BytesReaderMethods : List String := ["read_until", "read_exactly", "readline"]

/-- The methods defined by the abstract class `BytesWriter` in the source. -/
def BytesWriterMethods : List String := ["write", "close"]

/-- The methods defined by the class `TextReader` in the source (besides
`__init__`). -/
def TextReaderMethods : List String := ["read_until", "read_exactly", "readline"]

/-- The methods defined by the class `TextWriter` in the source (besides
`__init__`): it defines `write` only — it has no `close` method. -/
def TextWriterMethods : List String := ["write"]

/-- Observable events of one execution of the `connect` context manager.
Writers are identified by an abstract id. -/
inductive ConnEvent where
  | opened
  | yielded (writerId : Nat)
  | closed (writerId : Nat)

/-- How the caller-delimited scope (the body of `async with connect(...)`)
exits: normal return, a raised error, or task cancellation. -/
inductive BodyExit where
  | normal
  | raised (message : String)
  | cancelled

/-- The overall outcome of one execution of `connect`: either the transport
failed to open (the underlying `OSError` propagates unchanged), or the
body ran and its own exit propagates. -/
inductive ConnOutcome where
  | openFailed (osError : String)
  | finished (exit : BodyExit)

/-- The `finally` block of `connect` in the source: close the writer if and
only if one was constructed (`if writer is not None: await writer.close()`). -/
def finallyCloses : Option Nat → List ConnEvent
  | none => []
  | some w => [.closed w]

/-- Control flow of `connect(socket_path)` from the source: `writer` starts
as `None`; opening the transport either fails (the `OSError` propagates,
and the `finally` block sees `writer = None`) or yields a reader/writer
pair to the body, whose exit — normal, raised, or cancelled — propagates
after the `finally` block closes the writer. -/
def connectRun (openResult : Except String Nat) (bodyExit : BodyExit) :
    ConnOutcome × List ConnEvent :=
  match openResult with
  | .error e => (.openFailed e, finallyCloses none)
  | .ok w => (.finished bodyExit, .opened :: .yielded w :: finallyCloses (some w))

/-- How many times the writer with id `w` is closed in an event trace. -/
def countCloses (w : Nat) : List ConnEvent → Nat
  | [] => 0
  | .closed w' :: evs => (if w' = w then 1 else 0) + countCloses w evs
  | _ :: evs => countCloses w evs

end AsyncServerConnection

namespace DaemonQuery

/-- JSON values as produced by `json.loads`: `None`, booleans, numbers
(restricted to integers — no claim below depends on floating point),
strings, lists and string-keyed dictionaries. -/
inductive Json where
  | null
  | bool (b : Bool)
  | num (n : Int)
  | str (s : String)
  | arr (elems : List Json)
  | obj (members : List (String × Json))

/-- The opening brace character, written via its code so that it can be
compared against without a brace literal. -/
def lbraceChar : Char := Char.ofNat 123

/-- The closing brace character. -/
def rbraceChar : Char := Char.ofNat 125

def isWsChar (c : Char) : Bool := c = ' ' || c = '\t' || c = '\n' || c = '\r'

def skipWs : List Char → List Char
  | [] => []
  | c :: cs => if isWsChar c then skipWs cs else c :: cs

def isDigitChar (c : Char) : Bool := '0' ≤ c && c ≤ '9'

/-- Accumulate a run of decimal digits into a number, returning it with the
unconsumed remainder. -/
def digitsAux (acc : Nat) : List Char → Nat × List Char
  | [] => (acc, [])
  | c :: cs => if isDigitChar c then digitsAux (acc * 10 + (c.toNat - 48)) cs else (acc, c :: cs)

/-- Modelled standard library behavior: JSON number literal (integers). -/
def parseNumber : List Char → Option (Json × List Char)
  | [] => none
  | c :: cs =>
    if c = '-' then
      match cs with
      | d :: _ =>
        if isDigitChar d then
          match digitsAux 0 cs with
          | (n, r) => some (.num (-(Int.ofNat n)), r)
        else none
      | [] => none
    else if isDigitChar c then
      match digitsAux 0 (c :: cs) with
      | (n, r) => some (.num (Int.ofNat n), r)
    else none

/-- Modelled standard library behavior: the body of a JSON string literal
after the opening quote, with the common escapes. -/
def strAux (acc : List Char) : List Char → Option (List Char × List Char)
  | [] => none
  | '"' :: cs => some (acc.reverse, cs)
  | '\\' :: e :: cs =>
    if e = '"' then strAux ('"' :: acc) cs
    else if e = '\\' then strAux ('\\' :: acc) cs
    else if e = '/' then strAux ('/' :: acc) cs
    else if e = 'n' then strAux ('\n' :: acc) cs
    else if e = 't' then strAux ('\t' :: acc) cs
    else if e = 'r' then strAux ('\r' :: acc) cs
    else if e = 'b' then strAux (Char.ofNat 8 :: acc) cs
    else if e = 'f' then strAux (Char.ofNat 12 :: acc) cs
    else none
  | c :: cs => strAux (c :: acc) cs

mutual

/-- Modelled standard library behavior: `json.loads`'s recursive-descent
parsing of one JSON value.  The fuel argument serves only termination and
is instantiated with the input length plus one; every recursive call
follows the consumption of at least one character. -/
def parseValue : Nat → List Char → Option (Json × List Char)
  | 0, _ => none
  | f + 1, cs0 =>
    match skipWs cs0 with
    | [] => none
    | c :: rest =>
      if c = 'n' then
        match rest with
        | 'u' :: 'l' :: 'l' :: r => some (.null, r)
        | _ => none
      else if c = 't' then
        match rest with
        | 'r' :: 'u' :: 'e' :: r => some (.bool true, r)
        | _ => none
      else if c = 'f' then
        match rest with
        | 'a' :: 'l' :: 's' :: 'e' :: r => some (.bool false, r)
        | _ => none
      else if c = '"' then
        match strAux [] rest with
        | some (s, r) => some (.str (String.mk s), r)
        | none => none
      else if c = '[' then
        match skipWs rest with
        | c2 :: r2 =>
          if c2 = ']' then some (.arr [], r2)
          else
            match parseItems f (c2 :: r2) with
            | some (xs, r3) => some (.arr xs, r3)
            | none => none
        | [] => none
      else if c = lbraceChar then
        match skipWs rest with
        | c2 :: r2 =>
          if c2 = rbraceChar then some (.obj [], r2)
          else
            match parseMembers f (c2 :: r2) with
            | some (ms, r3) => some (.obj ms, r3)
            | none => none
        | [] => none
      else parseNumber (c :: rest)

/-- Comma-separated values of a non-empty JSON array, up to `]`. -/
def parseItems : Nat → List Char → Option (List Json × List Char)
  | 0, _ => none
  | f + 1, cs =>
    match parseValue f cs with
    | some (j, r) =>
      match skipWs r with
      | c :: r2 =>
        if c = ',' then
          match parseItems f r2 with
          | some (xs, r3) => some (j :: xs, r3)
          | none => none
        else if c = ']' then some ([j], r2)
        else none
      | [] => none
    | none => none

/-- Comma-separated `"key": value` members of a non-empty JSON object. -/
def parseMembers : Nat → List Char → Option (List (String × Json) × List Char)
  | 0, _ => none
  | f + 1, cs =>
    match skipWs cs with
    | c :: r =>
      if c = '"' then
        match strAux [] r with
        | some (k, r2) =>
          match skipWs r2 with
          | c2 :: r3 =>
            if c2 = ':' then
              match parseValue f r3 with
              | some (v, r4) =>
                match skipWs r4 with
                | c3 :: r5 =>
                  if c3 = ',' then
                    match parseMembers f r5 with
                    | some (ms, r6) => some ((String.mk k, v) :: ms, r6)
                    | none => none
                  else if c3 = rbraceChar then some ([(String.mk k, v)], r5)
                  else none
                | [] => none
              | none => none
            else none
          | [] => none
        | none => none
      else none
    | [] => none

end

/-- Modelled standard library behavior: `json.loads` — decode the text as
one JSON value, requiring the whole input (up to trailing whitespace) to be
consumed; `none` models a raised `json.JSONDecodeError`. -/
def jsonLoads (text : String) : Option Json :=
  match parseValue (text.length + 1) text.toList with
  | some (j, rest) =>
    match skipWs rest with
    | [] => some j
    | _ => none
  | none => none

def escapeChar (c : Char) : String :=
  if c = '"' then "\\\""
  else if c = '\\' then "\\\\"
  else if c = '\n' then "\\n"
  else if c = '\t' then "\\t"
  else if c = '\r' then "\\r"
  else String.mk [c]

def escapeString (s : String) : String := String.join (s.toList.map escapeChar)

mutual

/-- Modelled standard library behavior: `json.dumps` with its default
separators. -/
def jsonDumps : Json → String
  | .null => "null"
  | .bool true => "true"
  | .bool false => "false"
  | .num n => toString n
  | .str s => "\"" ++ escapeString s ++ "\""
  | .arr xs => "[" ++ dumpsElems xs ++ "]"
  | .obj ms => "\x7b" ++ dumpsMembers ms ++ "\x7d"

def dumpsElems : List Json → String
  | [] => ""
  | [x] => jsonDumps x
  | x :: y :: xs => jsonDumps x ++ ", " ++ dumpsElems (y :: xs)

def dumpsMembers : List (String × Json) → String
  | [] => ""
  | [(k, v)] => "\"" ++ escapeString k ++ "\": " ++ jsonDumps v
  | (k, v) :: m :: ms =>
    "\"" ++ escapeString k ++ "\": " ++ jsonDumps v ++ ", " ++ dumpsMembers (m :: ms)

end

/-- The `InvalidQueryResponse` exception raised by response parsing.  In the
source both failure modes raise `InvalidQueryResponse(message)`:
in the first, `json.loads` failed and the message embeds the
`json.JSONDecodeError`'s own description (error kind and position),
produced by the external `json` library and therefore abstracted here;
in the second, the decoded value is not a Query envelope and the message is
`f"Unexpected JSON response from server: {response_json}"`, which embeds
the printed form of the decoded value — the model records that value. -/
inductive InvalidQueryResponse where
  | cannotParseJson
  | unexpectedJsonResponse (responseJson : Json)

/-- `Response` from the source: a frozen dataclass holding the opaque
payload. -/
structure Response where
  payload : Json

/-- `Response.from_json` from the source: accept any decoded value that is
a list of length strictly greater than one whose first element equals
`"Query"`, returning the element at index 1; anything else raises
`InvalidQueryResponse` carrying the offending decoded value. -/
def Response.from_json (j : Json) : Except InvalidQueryResponse Response :=
  match j with
  | .arr elems =>
    match elems with
    | first :: second :: _ =>
      match first with
      | .str tag =>
        if tag = "Query" then .ok ⟨second⟩
        else .error (.unexpectedJsonResponse j)
      | _ => .error (.unexpectedJsonResponse j)
    | _ => .error (.unexpectedJsonResponse j)
  | _ => .error (.unexpectedJsonResponse j)

/-- `Response.parse` from the source: decode the text as JSON and delegate
to `Response.from_json`; a `json.JSONDecodeError` is converted into
`InvalidQueryResponse` (the `from_json` failure is not caught and
propagates as is). -/
def Response.parse (response_text : String) : Except InvalidQueryResponse Response :=
  match jsonLoads response_text with
  | some j => Response.from_json j
  | none => .error .cannotParseJson

/-- `execute_query`'s request serialization from the source:
`json.dumps(["Query", query_text])`. -/
def executeQueryRequest (query_text : String) : String :=
  jsonDumps (.arr [.str "Query", .str query_text])

end DaemonQuery

namespace AsyncServerConnection

theorem take_len_append {α : Type} (A B : List α) : (A ++ B).take A.length = A := by
  induction A with
  | nil => simp
  | cons a A ih => simp [ih]

theorem drop_len_append {α : Type} (A B : List α) : (A ++ B).drop A.length = B := by
  induction A with
  | nil => simp
  | cons a A ih => simp [ih]

/-- If the scan's invariant holds (`A` marks the first occurrence of the
separator and that occurrence ends strictly beyond the bytes already
scanned), `readUntilAux` finds exactly that occurrence. -/
theorem readUntilAux_ok (sep : List Nat) :
    ∀ rest acc A B, acc ++ rest = A ++ sep ++ B →
    (∀ A' B', acc ++ rest = A' ++ sep ++ B' → A.length ≤ A'.length) →
    acc.length < A.length + sep.length →
    readUntilAux sep acc rest = .ok (A ++ sep, B) := by
  intro rest
  induction rest with
  | nil =>
    intro acc A B hdec _ hinv
    exfalso
    have hlen := congrArg List.length hdec
    simp at hlen
    omega
  | cons b rest ih =>
    intro acc A B hdec hmin hinv
    have hsplit : acc ++ b :: rest = (acc ++ [b]) ++ rest := by simp
    rw [readUntilAux]
    by_cases hs : sep <:+ (acc ++ [b])
    · rw [if_pos hs]
      obtain ⟨C, hC⟩ := hs
      have hC' : acc ++ b :: rest = C ++ sep ++ rest := by
        rw [hsplit, ← hC]
      have hClen : C.length + sep.length = acc.length + 1 := by
        have h := congrArg List.length hC
        simp only [List.length_append, List.length_cons, List.length_nil] at h
        omega
      have h1 := hmin C rest hC'
      have hAC : A.length = C.length := by omega
      have hchain : A ++ sep ++ B = C ++ sep ++ rest := hdec.symm.trans hC'
      have heq : A ++ sep = C ++ sep := by
        have h2 := take_len_append (A ++ sep) B
        rw [hchain] at h2
        have hlen2 : (A ++ sep).length = (C ++ sep).length := by
          simp [hAC]
        rw [hlen2, take_len_append] at h2
        exact h2.symm
      have hBr : B = rest := by
        rw [heq] at hchain
        exact List.append_cancel_left hchain
      rw [← hC, ← heq, hBr]
    · rw [if_neg hs]
      apply ih (acc ++ [b]) A B
      · rw [← hsplit]; exact hdec
      · intro A' B' h'
        exact hmin A' B' (by rw [hsplit]; exact h')
      · by_contra hge
        push_neg at hge
        have hge' : A.length + sep.length ≤ acc.length + 1 := by
          simp at hge
          all_goals omega
        have hlenend : A.length + sep.length = acc.length + 1 := by omega
        have hchain : A ++ sep ++ B = (acc ++ [b]) ++ rest := hdec.symm.trans hsplit
        have heq : acc ++ [b] = A ++ sep := by
          have h2 := take_len_append (A ++ sep) B
          rw [hchain] at h2
          have hlen2 : (A ++ sep).length = (acc ++ [b]).length := by
            simp
            all_goals omega
          rw [hlen2, take_len_append] at h2
          exact h2
        exact hs ⟨A, heq.symm⟩

/-- If the separator occurs nowhere in the full scanned data, the scan
reaches end-of-stream and fails with everything it has read. -/
theorem readUntilAux_error (sep : List Nat) :
    ∀ rest acc, (∀ A' B', acc ++ rest ≠ A' ++ sep ++ B') →
    readUntilAux sep acc rest = .error (acc ++ rest) := by
  intro rest
  induction rest with
  | nil =>
    intro acc _
    simp [readUntilAux]
  | cons b rest ih =>
    intro acc hno
    have hsplit : acc ++ b :: rest = (acc ++ [b]) ++ rest := by simp
    rw [readUntilAux]
    by_cases hs : sep <:+ (acc ++ [b])
    · exfalso
      obtain ⟨C, hC⟩ := hs
      exact hno C rest (by rw [hsplit, ← hC])
    · rw [if_neg hs, hsplit]
      exact ih (acc ++ [b]) (fun A' B' h => hno A' B' (by rw [hsplit]; exact h))

theorem occurrence_drop (sep S A' B' : List Nat) (h : S = A' ++ sep ++ B') :
    sep <+: S.drop A'.length := by
  subst h
  have h1 : A' ++ sep ++ B' = A' ++ (sep ++ B') := by simp
  rw [h1, drop_len_append]
  exact ⟨B', rfl⟩

theorem read_until_ok (sep S A B : List Nat) (hsep : sep ≠ [])
    (hdec : S = A ++ sep ++ B)
    (hfirst : ∀ k, k < A.length → ¬ sep <+: S.drop k) :
    read_until sep S = .ok (A ++ sep, B) := by
  have hminimal : ∀ A' B', ([] : List Nat) ++ S = A' ++ sep ++ B' → A.length ≤ A'.length := by
    intro A' B' h'
    rw [List.nil_append] at h'
    by_contra hlt
    push_neg at hlt
    exact hfirst A'.length hlt (occurrence_drop sep S A' B' h')
  have hseplen : 0 < sep.length := List.length_pos.mpr hsep
  exact readUntilAux_ok sep S [] A B (by rw [List.nil_append]; exact hdec) hminimal
    (by simp only [List.length_nil]; omega)

theorem read_until_error (sep S : List Nat)
    (hnone : ∀ k, ¬ sep <+: S.drop k) :
    read_until sep S = .error S := by
  have hno : ∀ A' B', ([] : List Nat) ++ S ≠ A' ++ sep ++ B' := by
    intro A' B' h
    rw [List.nil_append] at h
    exact hnone A'.length (occurrence_drop sep S A' B' h)
  have h := readUntilAux_error sep S [] hno
  simpa [read_until] using h

theorem read_exactly_ok : ∀ (n : Nat) (S : List Nat), n ≤ S.length →
    read_exactly n S = .ok (S.take n, S.drop n) := by
  intro n
  induction n with
  | zero => intro S _; simp [read_exactly]
  | succ n ih =>
    intro S hn
    match S with
    | [] => simp at hn
    | b :: S' =>
      have hn' : n ≤ S'.length := by simp at hn; omega
      simp [read_exactly, ih S' hn']

theorem read_exactly_error : ∀ (n : Nat) (S : List Nat), S.length < n →
    read_exactly n S = .error S := by
  intro n
  induction n with
  | zero => intro S h; simp at h
  | succ n ih =>
    intro S hn
    match S with
    | [] => simp [read_exactly]
    | b :: S' =>
      have hn' : S'.length < n := by simp at hn; omega
      simp [read_exactly, ih S' hn']

/-- A single-element pattern is a prefix of `l.drop k` with `k` inside the
`A` part of `A ++ tail` only if that element occurs in `A`. -/
theorem not_single_occurrence_inside (a : Nat) (A tail : List Nat) (h : a ∉ A) :
    ∀ k, k < A.length → ¬ [a] <+: (A ++ tail).drop k := by
  intro k hk hpre
  obtain ⟨t, ht⟩ := hpre
  have hdropA : A.drop k ≠ [] := by
    intro hnil
    have := List.drop_eq_nil_iff.mp hnil
    omega
  obtain ⟨c, A2, hcons⟩ := List.exists_cons_of_ne_nil hdropA
  have hdropsplit : (A ++ tail).drop k = A.drop k ++ tail := by
    rw [List.drop_append_of_le_length (by omega)]
  rw [hdropsplit, hcons] at ht
  simp at ht
  have hc : c = a := ht.1.symm
  have hmem : c ∈ A := List.drop_subset k A (by rw [hcons]; exact List.mem_cons_self c A2)
  rw [hc] at hmem
  exact h hmem

theorem not_single_occurrence (a : Nat) (S : List Nat) (h : a ∉ S) :
    ∀ k, ¬ [a] <+: S.drop k := by
  intro k hpre
  obtain ⟨t, ht⟩ := hpre
  have : a ∈ S.drop k := by rw [← ht]; simp
  exact h (List.drop_subset k S this)

theorem readline_newline (S A B : List Nat) (hdec : S = A ++ 10 :: B)
    (hA : (10 : Nat) ∉ A) : readline S = (A ++ [10], B) := by
  have hdec' : S = A ++ [10] ++ B := by rw [hdec]; simp
  have hfirst : ∀ k, k < A.length → ¬ [10] <+: S.drop k := by
    rw [hdec]
    exact not_single_occurrence_inside 10 A (10 :: B) hA
  have h := read_until_ok [10] S A B (by simp) hdec' hfirst
  simp [readline, h]

theorem readline_no_newline (S : List Nat) (h : (10 : Nat) ∉ S) :
    readline S = (S, []) := by
  have hr := read_until_error [10] S (not_single_occurrence 10 S h)
  simp [readline, hr]

/-- C1: for every byte stream `S` and non-empty separator, if `sep` first
occurs in `S` right after a prefix `A` (no occurrence of `sep` starts
earlier), then `read_until(sep)` returns `A ++ sep` — the prefix of `S` up
to and including the first occurrence of the separator — and leaves exactly
the remainder `B` for subsequent reads.  If `sep` occurs nowhere in the
stream, `read_until` fails with an `IncompleteRead` carrying exactly the
partial bytes consumed, namely all of `S`: no byte is lost or duplicated. -/
theorem spec_C1 (sep S : List Nat) (hsep : sep ≠ []) :
    (∀ A B, S = A ++ sep ++ B → (∀ k, k < A.length → ¬ sep <+: S.drop k) →
      read_until sep S = .ok (A ++ sep, B))
    ∧ ((∀ k, ¬ sep <+: S.drop k) → read_until sep S = .error S) :=
  ⟨fun A B hdec hfirst => read_until_ok sep S A B hsep hdec hfirst,
   fun hnone => read_until_error sep S hnone⟩

theorem no_occurrence_of_bounded (sep S : List Nat) (hsep : sep ≠ [])
    (h : ∀ k, k < S.length → ¬ sep <+: S.drop k) :
    ∀ k, ¬ sep <+: S.drop k := by
  intro k hpre
  by_cases hk : k < S.length
  · exact h k hk hpre
  · push_neg at hk
    rw [List.drop_eq_nil_of_le hk] at hpre
    obtain ⟨t, ht⟩ := hpre
    exact hsep (List.append_eq_nil.mp ht).1

/-- Witness for C1, on the spec's concrete scenario `b"abcdefghijk"` with
separator `b"de"`, and on `b"abc"` with the absent separator `b"d"`. -/
theorem spec_C1_witness :
    read_until [100, 101] [97, 98, 99, 100, 101, 102, 103, 104, 105, 106, 107] =
      .ok ([97, 98, 99, 100, 101], [102, 103, 104, 105, 106, 107])
    ∧ read_until [100] [97, 98, 99] = .error [97, 98, 99] :=
  ⟨(spec_C1 [100, 101] [97, 98, 99, 100, 101, 102, 103, 104, 105, 106, 107]
      (by decide)).1 [97, 98, 99] [102, 103, 104, 105, 106, 107] rfl (by decide),
   (spec_C1 [100] [97, 98, 99] (by decide)).2
     (no_occurrence_of_bounded [100] [97, 98, 99] (by decide) (by decide))⟩

/-- C2: `read_exactly(n)` on a reader whose remaining stream is `S` returns
precisely the first `n` bytes and leaves the rest (for any split `S = A ++ B`
with `|A| = n`); if `n` exceeds the remaining stream length it fails with an
`IncompleteRead` whose partial data is all of `S`. -/
theorem spec_C2 (n : Nat) (S : List Nat) :
    (∀ A B, S = A ++ B → A.length = n → read_exactly n S = .ok (A, B))
    ∧ (S.length < n → read_exactly n S = .error S) := by
  constructor
  · intro A B hdec hlen
    subst hdec
    have h := read_exactly_ok n (A ++ B) (by simp; omega)
    rw [← hlen] at h
    rw [take_len_append, drop_len_append] at h
    rw [hlen] at h
    exact h
  · exact read_exactly_error n S

/-- Witness for C2, on the spec's concrete scenario: `read_exactly(4)` of
the stream remaining after `b"abcde"` was consumed, and `read_exactly(4)`
of the too-short stream `b"abc"`. -/
theorem spec_C2_witness :
    read_exactly 4 [102, 103, 104, 105, 106, 107] =
      .ok ([102, 103, 104, 105], [106, 107])
    ∧ read_exactly 4 [97, 98, 99] = .error [97, 98, 99] :=
  ⟨(spec_C2 4 [102, 103, 104, 105, 106, 107]).1 [102, 103, 104, 105] [106, 107]
      rfl (by decide),
   (spec_C2 4 [97, 98, 99]).2 (by decide)⟩

/-- C3: `readline()` is `read_until(b"\n")` with the incomplete-read failure
downgraded locally to success on the partial data: if the remaining stream
contains a newline it returns the line up to and including the first
newline, leaving the rest; if the stream contains no newline (in particular
the exhausted stream, which yields `b""`) it returns all remaining bytes
without failing. -/
theorem spec_C3 (S : List Nat) :
    (∀ A B, S = A ++ 10 :: B → (10 : Nat) ∉ A → readline S = (A ++ [10], B))
    ∧ ((10 : Nat) ∉ S → readline S = (S, []))
    ∧ readline [] = ([], []) :=
  ⟨fun A B hdec hA => readline_newline S A B hdec hA,
   fun h => readline_no_newline S h,
   readline_no_newline [] (by simp)⟩

/-- Witness for C3, on the spec's concrete scenario: after `b"abcdefghi"`
has been consumed from `b"abcdefghijk"`, `readline()` returns `b"jk"`; and
on a stream with a newline it returns the first line. -/
theorem spec_C3_witness :
    readline [106, 107] = ([106, 107], [])
    ∧ readline [97, 98, 10, 99] = ([97, 98, 10], [99]) :=
  ⟨(spec_C3 [106, 107]).2.1 (by decide),
   (spec_C3 [97, 98, 10, 99]).1 [97, 98] [99] rfl (by decide)⟩

/-- A valid scalar's UTF-8 encoding is classified back to exactly that
scalar by the chunk decoder, consuming exactly its continuation bytes. -/
theorem utf8DecodeChunk_encodeChar (c : Nat) (h : validScalar c) (rest : List Nat) :
    ∃ hd k tl, encodeChar c ++ rest = hd :: tl
      ∧ utf8DecodeChunk hd tl = some (c, k) ∧ tl.drop k = rest := by
  obtain ⟨hmax, hsur⟩ := h
  by_cases h1 : c < 0x80
  · refine ⟨c, 0, rest, by simp [encodeChar, h1], ?_, rfl⟩
    simp [utf8DecodeChunk, h1]
  · by_cases h2 : c < 0x800
    · refine ⟨0xC0 + c / 64, 1, (0x80 + c % 64) :: rest, by simp [encodeChar, h1, h2], ?_, rfl⟩
      have hb0 : ¬ (0xC0 + c / 64 < 0x80) := by omega
      have hb1 : ¬ (0xC0 + c / 64 < 0xC2) := by omega
      have hb2 : 0xC0 + c / 64 < 0xE0 := by omega
      have hc1 : 0x80 ≤ 0x80 + c % 64 ∧ 0x80 + c % 64 < 0xC0 := by omega
      have hval : (0xC0 + c / 64 - 0xC0) * 64 + (0x80 + c % 64 - 0x80) = c := by omega
      simp only [utf8DecodeChunk, if_neg hb0, if_neg hb1, if_pos hb2, if_pos hc1, hval]
    · by_cases h3 : c < 0x10000
      · refine ⟨0xE0 + c / 4096, 2, (0x80 + c / 64 % 64) :: (0x80 + c % 64) :: rest,
          by simp [encodeChar, h1, h2, h3], ?_, rfl⟩
        have hb0 : ¬ (0xE0 + c / 4096 < 0x80) := by omega
        have hb1 : ¬ (0xE0 + c / 4096 < 0xC2) := by omega
        have hb2 : ¬ (0xE0 + c / 4096 < 0xE0) := by omega
        have hb3 : 0xE0 + c / 4096 < 0xF0 := by omega
        have hc1 : (0x80 ≤ 0x80 + c / 64 % 64 ∧ 0x80 + c / 64 % 64 < 0xC0)
            ∧ (0x80 ≤ 0x80 + c % 64 ∧ 0x80 + c % 64 < 0xC0) := by omega
        have hval : (0xE0 + c / 4096 - 0xE0) * 4096 + (0x80 + c / 64 % 64 - 0x80) * 64
            + (0x80 + c % 64 - 0x80) = c := by omega
        have hr : ¬ (c < 0x800 ∨ (0xD800 ≤ c ∧ c < 0xE000)) := by omega
        simp only [utf8DecodeChunk, if_neg hb0, if_neg hb1, if_neg hb2, if_pos hb3,
          if_pos hc1, hval, if_neg hr]
      · refine ⟨0xF0 + c / 262144, 3,
          (0x80 + c / 4096 % 64) :: (0x80 + c / 64 % 64) :: (0x80 + c % 64) :: rest,
          by simp [encodeChar, h1, h2, h3], ?_, rfl⟩
        have hb0 : ¬ (0xF0 + c / 262144 < 0x80) := by omega
        have hb1 : ¬ (0xF0 + c / 262144 < 0xC2) := by omega
        have hb2 : ¬ (0xF0 + c / 262144 < 0xE0) := by omega
        have hb3 : ¬ (0xF0 + c / 262144 < 0xF0) := by omega
        have hb4 : 0xF0 + c / 262144 < 0xF5 := by omega
        have hc1 : (0x80 ≤ 0x80 + c / 4096 % 64 ∧ 0x80 + c / 4096 % 64 < 0xC0)
            ∧ (0x80 ≤ 0x80 + c / 64 % 64 ∧ 0x80 + c / 64 % 64 < 0xC0)
            ∧ (0x80 ≤ 0x80 + c % 64 ∧ 0x80 + c % 64 < 0xC0) := by omega
        have hval : (0xF0 + c / 262144 - 0xF0) * 262144 + (0x80 + c / 4096 % 64 - 0x80) * 4096
            + (0x80 + c / 64 % 64 - 0x80) * 64 + (0x80 + c % 64 - 0x80) = c := by omega
        have hr : ¬ (c < 0x10000 ∨ 0x110000 ≤ c) := by omega
        simp only [utf8DecodeChunk, if_neg hb0, if_neg hb1, if_neg hb2, if_neg hb3,
          if_pos hb4, if_pos hc1, hval, if_neg hr]

theorem decodeUtf8Strict_encodeChar (c : Nat) (h : validScalar c) (rest : List Nat) :
    decodeUtf8Strict (encodeChar c ++ rest) =
      (decodeUtf8Strict rest).map (fun cs => c :: cs) := by
  obtain ⟨hd, k, tl, he, hch, hdrop⟩ := utf8DecodeChunk_encodeChar c h rest
  rw [he, decodeUtf8Strict, hch]
  show (decodeUtf8Strict (tl.drop k)).map (fun cs => c :: cs) =
    (decodeUtf8Strict rest).map (fun cs => c :: cs)
  rw [hdrop]

theorem decodeUtf8Strict_encodeUtf8 (cs : List Nat) (h : ∀ c ∈ cs, validScalar c) :
    decodeUtf8Strict (encodeUtf8 cs) = some cs := by
  induction cs with
  | nil => simp [encodeUtf8, decodeUtf8Strict]
  | cons c cs ih =>
    rw [encodeUtf8, decodeUtf8Strict_encodeChar c (h c (by simp)) (encodeUtf8 cs)]
    rw [ih (fun x hx => h x (by simp [hx]))]
    rfl

theorem encodeUtf8_append (xs ys : List Nat) :
    encodeUtf8 (xs ++ ys) = encodeUtf8 xs ++ encodeUtf8 ys := by
  induction xs with
  | nil => simp [encodeUtf8]
  | cons c cs ih => simp [encodeUtf8, ih]

theorem encodeChar_not_10 (c : Nat) (hc : c ≠ 10) : ∀ b ∈ encodeChar c, b ≠ 10 := by
  intro b hb
  by_cases h1 : c < 0x80
  · simp [encodeChar, h1] at hb
    omega
  · by_cases h2 : c < 0x800
    · simp [encodeChar, h1, h2] at hb
      rcases hb with hb | hb <;> omega
    · by_cases h3 : c < 0x10000
      · simp [encodeChar, h1, h2, h3] at hb
        rcases hb with hb | hb | hb <;> omega
      · simp [encodeChar, h1, h2, h3] at hb
        rcases hb with hb | hb | hb | hb <;> omega

theorem encodeUtf8_not_mem_10 (u : List Nat) (h : (10 : Nat) ∉ u) :
    (10 : Nat) ∉ encodeUtf8 u := by
  induction u with
  | nil => simp [encodeUtf8]
  | cons c cs ih =>
    have hc : c ≠ 10 := by
      intro hq
      exact h (by simp [hq])
    have hcs : (10 : Nat) ∉ cs := fun hm => h (by simp [hm])
    rw [encodeUtf8]
    simp only [List.mem_append]
    rintro (hmem | hmem)
    · exact encodeChar_not_10 c hc 10 hmem rfl
    · exact ih hcs hmem

/-- C4 (code evaluation): in the source, `TextReader` decodes with the
encoding's default strict mode, so the decode-error branch is reachable:
on the byte stream `"∅\n".encode("utf-16")` — the input of the repository's
own test `test_text_errors` — `readline` followed by strict decoding fails
with a `UnicodeDecodeError` instead of returning replacement markers.  The
second conjunct shows the replacement-mode decoding the spec (and the
test, which expects `'��\x05"'`) describe, which the source does not use. -/
theorem spec_C4_code_eval :
    textReadline [255, 254, 5, 34, 10, 0] = .error .decodeError
    ∧ decodeUtf8Replace [255, 254, 5, 34, 10] = [0xFFFD, 0xFFFD, 5, 34, 10] := by
  constructor
  · have hrl : readline [255, 254, 5, 34, 10, 0] = ([255, 254, 5, 34, 10], [0]) := by decide
    have hdec : decodeUtf8Strict [255, 254, 5, 34, 10] = none := by
      rw [decodeUtf8Strict]
      simp [utf8DecodeChunk]
    simp [textReadline, hrl, hdec]
  · simp [decodeUtf8Replace, utf8DecodeChunk]

/-- C5: the text channel round-trips every encodable text: writing `t`
through `TextWriter.write` onto an empty channel and reading it back on the
paired reader — with `read_exactly` of the encoded length, or with
`readline` when `t` is newline-terminated — yields exactly `t`, leaving any
later bytes `extra` untouched in the stream. -/
theorem spec_C5 (t extra : List Nat) (hv : ∀ c ∈ t, validScalar c) :
    textReadExactly (encodeUtf8 t).length (textWrite t [] ++ extra) = .ok (t, extra)
    ∧ (∀ u, t = u ++ [10] → (10 : Nat) ∉ u →
        textReadline (textWrite t [] ++ extra) = .ok (t, extra)) := by
  have henc : textWrite t [] = encodeUtf8 t := by simp [textWrite]
  constructor
  · have hre : read_exactly (encodeUtf8 t).length (encodeUtf8 t ++ extra) =
        .ok (encodeUtf8 t, extra) := by
      have h := read_exactly_ok (encodeUtf8 t).length (encodeUtf8 t ++ extra) (by simp)
      rw [take_len_append, drop_len_append] at h
      exact h
    rw [henc]
    simp [textReadExactly, hre, decodeUtf8Strict_encodeUtf8 t hv]
  · intro u hu h10
    subst hu
    have hone : encodeUtf8 [10] = [10] := by simp [encodeUtf8, encodeChar]
    have hstream : encodeUtf8 (u ++ [10]) ++ extra = encodeUtf8 u ++ 10 :: extra := by
      rw [encodeUtf8_append, hone]
      simp
    have hrl : readline (encodeUtf8 (u ++ [10]) ++ extra) = (encodeUtf8 u ++ [10], extra) := by
      rw [hstream]
      exact readline_newline _ (encodeUtf8 u) extra rfl (encodeUtf8_not_mem_10 u h10)
    have hdec : decodeUtf8Strict (encodeUtf8 u ++ [10]) = some (u ++ [10]) := by
      have he : encodeUtf8 u ++ [10] = encodeUtf8 (u ++ [10]) := by
        rw [encodeUtf8_append, hone]
      rw [he]
      exact decodeUtf8Strict_encodeUtf8 (u ++ [10]) hv
    rw [henc]
    simp [textReadline, hrl, hdec]

/-- Witness for C5: the text `"∅\n"` (code points `[8709, 10]`, whose UTF-8
encoding is 4 bytes long) round-trips through both read paths, leaving a
trailing byte in place. -/
theorem spec_C5_witness :
    textReadExactly 4 (textWrite [8709, 10] [] ++ [120]) = .ok ([8709, 10], [120])
    ∧ textReadline (textWrite [8709, 10] [] ++ [120]) = .ok ([8709, 10], [120]) := by
  have h := spec_C5 [8709, 10] [120] (by decide)
  exact ⟨h.1, h.2 [8709] rfl (by decide)⟩

/-- C8 counterexample: the claim says the Text Channel adapter provides a
text-typed counterpart of every byte-level Writer method, in particular
that `TextWriter` offers `close`; but the source's `TextWriter` class
defines no `close` method. -/
theorem spec_C8_counterexample : "close" ∉ TextWriterMethods := by
  simp [TextWriterMethods]

/-- C8 (amended): `TextReader` mirrors every `BytesReader` method
(`read_until`, `read_exactly`, `readline`), each with the byte-level
semantics modulo encoding, and `TextWriter` mirrors `write` (encoding then
delegating to the byte writer) — but, unlike `BytesWriter`, it offers no
`close`; transport shutdown is reached only through the underlying byte
writer (e.g. via `connect`'s scoped cleanup). -/
theorem spec_C8_amended :
    TextReaderMethods = BytesReaderMethods
    ∧ "write" ∈ TextWriterMethods ∧ "close" ∈ BytesWriterMethods
    ∧ "close" ∉ TextWriterMethods
    ∧ (∀ data channel, textWrite data channel = channel ++ encodeUtf8 data)
    ∧ (∀ n s bs rest t, read_exactly n s = .ok (bs, rest) →
        decodeUtf8Strict bs = some t → textReadExactly n s = .ok (t, rest))
    ∧ (∀ sep s bs rest t, read_until (encodeUtf8 sep) s = .ok (bs, rest) →
        decodeUtf8Strict bs = some t → textReadUntil sep s = .ok (t, rest))
    ∧ (∀ s t, decodeUtf8Strict (readline s).1 = some t →
        textReadline s = .ok (t, (readline s).2)) := by
  refine ⟨rfl, by simp [TextWriterMethods], by simp [BytesWriterMethods],
    by simp [TextWriterMethods], fun _ _ => rfl, ?_, ?_, ?_⟩
  · intro n s bs rest t h1 h2
    simp [textReadExactly, h1, h2]
  · intro sep s bs rest t h1 h2
    simp [textReadUntil, h1, h2]
  · intro s t h
    show (match decodeUtf8Strict (readline s).1 with
      | some u => Except.ok (u, (readline s).2)
      | none => Except.error TextReadError.decodeError) =
      Except.ok (t, (readline s).2)
    rw [h]

/-- Witness for C8: the correspondence instantiated on a concrete stream. -/
theorem spec_C8_witness :
    textReadExactly 2 [104, 105, 106] = .ok ([104, 105], [106]) :=
  spec_C8_amended.2.2.2.2.2.1 2 [104, 105, 106] [104, 105] [106] [104, 105]
    rfl (by simp [decodeUtf8Strict, utf8DecodeChunk])

/-- C9: in every execution of `connect`, if the transport opened
successfully (so a writer was constructed) the writer is closed exactly
once on scope exit, whether the body returned normally, raised, or was
cancelled, and the body's exit propagates; if opening the transport failed,
no close is attempted and the underlying OS error propagates to the caller
unwrapped. -/
theorem spec_C9 (openResult : Except String Nat) (bodyExit : BodyExit) :
    (∀ w, openResult = .ok w →
      countCloses w (connectRun openResult bodyExit).2 = 1
      ∧ (connectRun openResult bodyExit).1 = .finished bodyExit)
    ∧ (∀ e, openResult = .error e →
      (∀ w, countCloses w (connectRun openResult bodyExit).2 = 0)
      ∧ (connectRun openResult bodyExit).1 = .openFailed e) := by
  constructor
  · rintro w rfl
    exact ⟨by simp [connectRun, finallyCloses, countCloses], rfl⟩
  · rintro e rfl
    exact ⟨fun w => rfl, rfl⟩

/-- Witness for C9: a successful open with a cancelled body closes the
writer exactly once; a failed open closes nothing and surfaces the error. -/
theorem spec_C9_witness :
    countCloses 7 (connectRun (.ok 7) .cancelled).2 = 1
    ∧ (connectRun (.ok 7) .cancelled).1 = .finished .cancelled
    ∧ countCloses 7 (connectRun (.error "ECONNREFUSED") .normal).2 = 0
    ∧ (connectRun (.error "ECONNREFUSED") .normal).1 = .openFailed "ECONNREFUSED" :=
  ⟨((spec_C9 (.ok 7) .cancelled).1 7 rfl).1,
   ((spec_C9 (.ok 7) .cancelled).1 7 rfl).2,
   ((spec_C9 (.error "ECONNREFUSED") .normal).2 "ECONNREFUSED" rfl).1 7,
   ((spec_C9 (.error "ECONNREFUSED") .normal).2 "ECONNREFUSED" rfl).2⟩

end AsyncServerConnection

namespace DaemonQuery

theorem from_json_ok_iff (j : Json) (r : Response) :
    Response.from_json j = .ok r ↔
      ∃ second rest, j = .arr (.str "Query" :: second :: rest) ∧ r = ⟨second⟩ := by
  constructor
  · intro h
    cases j with
    | arr elems =>
      cases elems with
      | nil => simp [Response.from_json] at h
      | cons first tailElems =>
        cases tailElems with
        | nil => simp [Response.from_json] at h
        | cons second tailElems2 =>
          cases first with
          | str tag =>
            by_cases htag : tag = "Query"
            · subst htag
              simp [Response.from_json] at h
              exact ⟨second, tailElems2, rfl, h.symm⟩
            · simp [Response.from_json, htag] at h
          | null => simp [Response.from_json] at h
          | bool b => simp [Response.from_json] at h
          | num n => simp [Response.from_json] at h
          | arr xs => simp [Response.from_json] at h
          | obj ms => simp [Response.from_json] at h
    | null => simp [Response.from_json] at h
    | bool b => simp [Response.from_json] at h
    | num n => simp [Response.from_json] at h
    | str s => simp [Response.from_json] at h
    | obj ms => simp [Response.from_json] at h
  · rintro ⟨second, rest, rfl, rfl⟩
    simp [Response.from_json]

theorem from_json_error_shape (j : Json) (e : InvalidQueryResponse)
    (h : Response.from_json j = .error e) : e = .unexpectedJsonResponse j := by
  cases j with
  | arr elems =>
    cases elems with
    | nil => simp [Response.from_json] at h; exact h.symm
    | cons first tailElems =>
      cases tailElems with
      | nil => simp [Response.from_json] at h; exact h.symm
      | cons second tailElems2 =>
        cases first with
        | str tag =>
          by_cases htag : tag = "Query"
          · subst htag
            simp [Response.from_json] at h
          · simp [Response.from_json, htag] at h
            exact h.symm
        | null => simp [Response.from_json] at h; exact h.symm
        | bool b => simp [Response.from_json] at h; exact h.symm
        | num n => simp [Response.from_json] at h; exact h.symm
        | arr xs => simp [Response.from_json] at h; exact h.symm
        | obj ms => simp [Response.from_json] at h; exact h.symm
  | null => simp [Response.from_json] at h; exact h.symm
  | bool b => simp [Response.from_json] at h; exact h.symm
  | num n => simp [Response.from_json] at h; exact h.symm
  | str s => simp [Response.from_json] at h; exact h.symm
  | obj ms => simp [Response.from_json] at h; exact h.symm

theorem parse_ok_iff (t : String) (r : Response) :
    Response.parse t = .ok r ↔
      ∃ second rest, jsonLoads t = some (.arr (.str "Query" :: second :: rest))
        ∧ r = ⟨second⟩ := by
  unfold Response.parse
  cases hl : jsonLoads t with
  | none => simp
  | some j => simpa only [Option.some.injEq] using from_json_ok_iff j r

theorem parse_error_of_not_envelope (t : String)
    (h : ¬ ∃ second rest, jsonLoads t = some (.arr (.str "Query" :: second :: rest))) :
    ∃ e, Response.parse t = .error e := by
  cases hp : Response.parse t with
  | ok r =>
    obtain ⟨second, rest, hl, _⟩ := (parse_ok_iff t r).mp hp
    exact absurd ⟨second, rest, hl⟩ h
  | error e => exact ⟨e, rfl⟩

/-- C6: `execute_query` serializes its request as the JSON array
`["Query", query_text]`, and `Response.parse` succeeds with the second
element as opaque payload if and only if the received text decodes as JSON
to a list of two or more elements whose first element is the string
`"Query"`; on every other input — text that is not valid JSON, a
non-list value, a too-short list, or a list with a different head — it
raises `InvalidQueryResponse`. -/
theorem spec_C6 :
    (∀ q, executeQueryRequest q = jsonDumps (.arr [.str "Query", .str q]))
    ∧ (∀ t r, Response.parse t = .ok r ↔
        ∃ second rest, jsonLoads t = some (.arr (.str "Query" :: second :: rest))
          ∧ r = ⟨second⟩)
    ∧ (∀ t, (¬ ∃ second rest,
          jsonLoads t = some (.arr (.str "Query" :: second :: rest))) →
        ∃ e, Response.parse t = .error e) :=
  ⟨fun _ => rfl, parse_ok_iff, parse_error_of_not_envelope⟩

/-- Witness for C6: a well-formed envelope parses to its payload; a text
that is not valid JSON is rejected with an error. -/
theorem spec_C6_witness :
    Response.parse "[\"Query\", 7]" = .ok ⟨.num 7⟩
    ∧ (∃ e, Response.parse "nope" = .error e) :=
  ⟨(spec_C6.2.1 "[\"Query\", 7]" ⟨.num 7⟩).mpr ⟨.num 7, [], rfl, rfl⟩,
   spec_C6.2.2 "nope" (by
    rintro ⟨second, rest, h⟩
    rw [show jsonLoads "nope" = none from rfl] at h
    exact Option.noConfusion h)⟩

/-- C7 counterexample: the `InvalidQueryResponse` raised on a malformed
envelope does not carry the raw offending response text: the two distinct
raw texts `"[1,2]"` and `"[1, 2]"` produce identical exceptions (the
exception embeds only the decoded value), so no function of the exception
can recover the raw text. -/
theorem spec_C7_counterexample :
    Response.parse "[1,2]" = .error (.unexpectedJsonResponse (.arr [.num 1, .num 2]))
    ∧ Response.parse "[1, 2]" = .error (.unexpectedJsonResponse (.arr [.num 1, .num 2]))
    ∧ "[1,2]" ≠ "[1, 2]"
    ∧ ¬ ∃ g : InvalidQueryResponse → String,
        ∀ t e, Response.parse t = .error e → g e = t := by
  refine ⟨rfl, rfl, by decide, ?_⟩
  rintro ⟨g, hg⟩
  have h1 := hg "[1,2]" (.unexpectedJsonResponse (.arr [.num 1, .num 2])) rfl
  have h2 := hg "[1, 2]" (.unexpectedJsonResponse (.arr [.num 1, .num 2])) rfl
  rw [h1] at h2
  exact absurd h2 (by decide)

/-- C7 (amended): an `InvalidQueryResponse` raised on a malformed envelope
carries diagnostic information derived from the decoded JSON value — the
exception message embeds the printed form of that value, not the raw
response text — and in the invalid-JSON mode the message embeds the decode
error's description. -/
theorem spec_C7_amended (t : String) (j : Json) (e : InvalidQueryResponse)
    (h1 : jsonLoads t = some j) (h2 : Response.from_json j = .error e) :
    Response.parse t = .error e ∧ e = .unexpectedJsonResponse j := by
  constructor
  · have hstep : Response.parse t = Response.from_json j := by
      unfold Response.parse
      rw [h1]
    rw [hstep]
    exact h2
  · exact from_json_error_shape j e h2

/-- Witness for C7's amended theorem, at the response text `"{}"`. -/
theorem spec_C7_witness :
    Response.parse "\x7b\x7d" = .error (.unexpectedJsonResponse (.obj []))
    ∧ InvalidQueryResponse.unexpectedJsonResponse (.obj [])
      = .unexpectedJsonResponse (.obj []) :=
  spec_C7_amended "\x7b\x7d" (.obj []) (.unexpectedJsonResponse (.obj [])) rfl rfl

/-- C10: `Response.from_json` applied to a JSON list with strictly more
than two elements whose first element is `"Query"` succeeds and returns the
element at index 1, silently ignoring every element after the second —
extra trailing elements never cause `InvalidQueryResponse`. -/
theorem spec_C10 (second x : Json) (rest : List Json) :
    Response.from_json (.arr (.str "Query" :: second :: x :: rest)) = .ok ⟨second⟩ := by
  simp [Response.from_json]

end DaemonQuery
